import Mathlib

/-!
Verification development for the youtube-reader transcript pipeline.

The TypeScript sources are shallowly embedded as Lean definitions:

* the fallback executor `fetchTranscript` (src/providers/index.ts) is modelled
  over pure provider descriptions, where each provider's `available()` probe is
  a boolean (the concrete providers' probes never reject) and each `fetch()`
  call on the given video is described by a `FetchOutcome` (a result, `null`,
  or a thrown error message);
* the provider resolver `resolveProviders` is modelled over an explicit
  environment record plus the results of the two host probles (`hasYtdlp`,
  `detectWhisper`);
* the subtitle parser (`parseVtt`, `parseSrt`, `cleanSubtitleLine`) is
  modelled at the character-list level, with JavaScript's regular-expression
  passes implemented as explicit left-to-right scanners;
* the transcript extractor (`extractTranscriptItems`) is modelled over an
  inductive JSON value type whose strings are character lists.
-/

set_option linter.unusedVariables false

namespace YoutubeReader

/-! ## Character-level string utilities shared by the embeddings -/

/-- Prefix test on character lists. -/
def isPrefixOfC : List Char → List Char → Bool
  | [], _ => true
  | _ :: _, [] => false
  | a :: as, b :: bs => a == b && isPrefixOfC as bs

/-- Substring occurrence test on character lists (JavaScript
`String.prototype.includes`). -/
def containsSub (pat : List Char) : List Char → Bool
  | [] => isPrefixOfC pat []
  | c :: rest => isPrefixOfC pat (c :: rest) || containsSub pat rest

/-! ## Data model (src/providers/index.ts) -/

/-- `TranscriptSource` — the `"api" | "ytdlp" | "whisper"` union. -/
inductive TranscriptSource
  | api
  | ytdlp
  | whisper
deriving DecidableEq, Repr

/-- `TranscriptResult` from src/providers/index.ts. -/
structure TranscriptResult where
  text : String
  title : Option String := none
  language : Option String := none
  source : TranscriptSource
deriving DecidableEq, Repr

/-- Behaviour of one `provider.fetch(videoId)` call: a result, `null`
("absent"), or a thrown error carrying its message. -/
inductive FetchOutcome
  | ok (r : TranscriptResult)
  | absent
  | err (msg : String)
deriving DecidableEq, Repr

/-- A provider as seen by `fetchTranscript`: its `name`, the boolean its
`available()` probe resolves to, and the outcome of `fetch(videoId)` for the
video under consideration.  The concrete providers' `available()`
implementations never reject (`commandExists` catches), so a plain `Bool` is
faithful. -/
structure ModelProvider where
  name : String
  available : Bool
  outcome : FetchOutcome
deriving DecidableEq, Repr

/-- One element of the `errors` array accumulated by `fetchTranscript`. -/
structure AttemptEntry where
  provider : String
  errMsg : String
deriving DecidableEq, Repr

/-- Result of a `fetchTranscript` run: the returned value or thrown error
message, the final `errors` array, and the names of the providers whose
`fetch` was actually invoked (in invocation order). -/
inductive FetchResult
  | ok (r : TranscriptResult)
  | thrown (msg : String)
deriving DecidableEq, Repr

structure FetchTrace where
  result : FetchResult
  log : List AttemptEntry
  invoked : List String
deriving DecidableEq, Repr

/-! ## Fallback executor (`fetchTranscript`, src/providers/index.ts lines 368-415) -/

/-- The message of `new Error` thrown when a provider returns `null` and
`noFallback` is set. -/
def noTranscriptMsg (name vid : String) : String :=
  "[" ++ name ++ "] No transcript available for video " ++ vid

/-- `errors.map((e) => `  - ${e.provider}: ${e.error.message}`).join("\n")`. -/
def errorDetails (errs : List AttemptEntry) : String :=
  String.intercalate "\n" (errs.map (fun e => "  - " ++ e.provider ++ ": " ++ e.errMsg))

/-- The aggregate error message thrown when the chain is exhausted. -/
def aggregateMsg (vid : String) (total : Nat) (errs : List AttemptEntry) : String :=
  "Failed to get transcript for video " ++ vid ++ ".\n" ++
    "Tried " ++ toString total ++ " provider(s):\n" ++ errorDetails errs

/-- The provider loop of `fetchTranscript`.  `total` is `providers.length`
(used only in the aggregate message); `errs` and `inv` are the accumulated
`errors` array and the list of providers invoked so far.

Per iteration (mirroring the source): an unavailable provider is skipped
silently; a result returns immediately; a `null` result continues unless
`noFallback`, in which case the "no transcript" error is thrown (the `throw`
sits inside the `try`, so the catch block records it in `errors` before
re-throwing); a thrown error is recorded in `errors` and re-thrown when
`noFallback`, otherwise the loop continues. -/
def fetchTranscriptAux (vid : String) (noFallback : Bool) (total : Nat) :
    List ModelProvider → List AttemptEntry → List String → FetchTrace
  | [], errs, inv => ⟨.thrown (aggregateMsg vid total errs), errs, inv⟩
  | p :: rest, errs, inv =>
    if !p.available then
      fetchTranscriptAux vid noFallback total rest errs inv
    else
      match p.outcome with
      | .ok r => ⟨.ok r, errs, inv ++ [p.name]⟩
      | .absent =>
        if noFallback then
          ⟨.thrown (noTranscriptMsg p.name vid),
            errs ++ [⟨p.name, noTranscriptMsg p.name vid⟩], inv ++ [p.name]⟩
        else
          fetchTranscriptAux vid noFallback total rest errs (inv ++ [p.name])
      | .err e =>
        if noFallback then
          ⟨.thrown e, errs ++ [⟨p.name, e⟩], inv ++ [p.name]⟩
        else
          fetchTranscriptAux vid noFallback total rest (errs ++ [⟨p.name, e⟩]) (inv ++ [p.name])

/-- `fetchTranscript(videoId, providers, noFallback)`. -/
def fetchTranscript (vid : String) (providers : List ModelProvider) (noFallback : Bool) :
    FetchTrace :=
  fetchTranscriptAux vid noFallback providers.length providers [] []

/-- The `errors` entries contributed by one attempted provider: one entry when
its fetch threw, none otherwise. -/
def errLogOf (p : ModelProvider) : List AttemptEntry :=
  match p.outcome with
  | .err e => [⟨p.name, e⟩]
  | _ => []

/-- The full `errors` array produced by a fallback-enabled run that exhausts
the chain: one entry per available provider whose fetch threw. -/
def attemptLog (ps : List ModelProvider) : List AttemptEntry :=
  ps.flatMap (fun p => if p.available then errLogOf p else [])

/-- Names of the providers whose `fetch` is invoked when the chain is
exhausted with fallback enabled: exactly the available ones, in order. -/
def invokedOf (ps : List ModelProvider) : List String :=
  ps.filterMap (fun p => if p.available then some p.name else none)

/-! ### Executor lemmas -/

theorem fetchTranscriptAux_skip_unavailable (vid : String) (nf : Bool) (total : Nat)
    (pre ps : List ModelProvider) (errs : List AttemptEntry) (inv : List String)
    (h : ∀ q ∈ pre, q.available = false) :
    fetchTranscriptAux vid nf total (pre ++ ps) errs inv =
      fetchTranscriptAux vid nf total ps errs inv := by
  induction pre with
  | nil => rfl
  | cons q pre ih =>
    have hq : q.available = false := h q (List.mem_cons_self q pre)
    simp only [List.cons_append, fetchTranscriptAux, hq]
    exact ih (fun q hq' => h q (List.mem_cons_of_mem _ hq'))

theorem fetchTranscriptAux_exhaust (vid : String) (total : Nat)
    (ps : List ModelProvider) (errs : List AttemptEntry) (inv : List String)
    (h : ∀ p ∈ ps, p.available = true → ∀ r, p.outcome ≠ .ok r) :
    fetchTranscriptAux vid false total ps errs inv =
      ⟨.thrown (aggregateMsg vid total (errs ++ attemptLog ps)),
        errs ++ attemptLog ps, inv ++ invokedOf ps⟩ := by
  induction ps generalizing errs inv with
  | nil => simp [fetchTranscriptAux, attemptLog, invokedOf]
  | cons p rest ih =>
    have hrest : ∀ q ∈ rest, q.available = true → ∀ r, q.outcome ≠ .ok r :=
      fun q hq => h q (List.mem_cons_of_mem _ hq)
    by_cases hav : p.available = true
    · have hnok : ∀ r, p.outcome ≠ .ok r := h p (List.mem_cons_self p rest) hav
      cases ho : p.outcome with
      | ok r => exact absurd ho (hnok r)
      | absent =>
        simp only [fetchTranscriptAux, hav, Bool.not_true, Bool.false_eq_true, if_false, ho]
        rw [ih _ _ hrest]
        simp [attemptLog, invokedOf, hav, ho, errLogOf]
      | err e =>
        simp only [fetchTranscriptAux, hav, Bool.not_true, Bool.false_eq_true, if_false, ho]
        rw [ih _ _ hrest]
        simp [attemptLog, invokedOf, hav, ho, errLogOf]
    · have hav' : p.available = false := by
        cases hpa : p.available
        · rfl
        · exact absurd hpa hav
      simp only [fetchTranscriptAux, hav', Bool.not_false, if_true]
      rw [ih _ _ hrest]
      simp [attemptLog, invokedOf, hav']

/-! ### Claim C1 -/

/-- C1 (amended): for a chain beginning with three available providers where
the first two each return `Absent` or throw and the third returns a result
(fallback enabled), `fetchTranscript` returns exactly the third provider's
result, exactly the first three providers are invoked (everything after the
third is never invoked — the chain short-circuits on the first result), and
the attempt log holds one entry per erroring provider among the first two:
2 entries when both threw, but an `Absent` outcome contributes no entry. -/
theorem fetchTranscript_chain3 (vid : String) (p1 p2 p3 : ModelProvider)
    (rest : List ModelProvider) (r : TranscriptResult)
    (h1a : p1.available = true) (h2a : p2.available = true) (h3a : p3.available = true)
    (h1 : p1.outcome = .absent ∨ ∃ e, p1.outcome = .err e)
    (h2 : p2.outcome = .absent ∨ ∃ e, p2.outcome = .err e)
    (h3 : p3.outcome = .ok r) :
    (fetchTranscript vid (p1 :: p2 :: p3 :: rest) false).result = .ok r ∧
    (fetchTranscript vid (p1 :: p2 :: p3 :: rest) false).invoked =
      [p1.name, p2.name, p3.name] ∧
    (fetchTranscript vid (p1 :: p2 :: p3 :: rest) false).log = errLogOf p1 ++ errLogOf p2 ∧
    ((∃ e, p1.outcome = .err e) → (∃ e, p2.outcome = .err e) →
      (fetchTranscript vid (p1 :: p2 :: p3 :: rest) false).log.length = 2) := by
  have expand : fetchTranscript vid (p1 :: p2 :: p3 :: rest) false =
      ⟨.ok r, errLogOf p1 ++ errLogOf p2, [p1.name, p2.name, p3.name]⟩ := by
    unfold fetchTranscript
    rcases h1 with h1 | ⟨e1, h1⟩ <;> rcases h2 with h2 | ⟨e2, h2⟩ <;>
      simp [fetchTranscriptAux, h1a, h2a, h3a, h1, h2, h3, errLogOf]
  refine ⟨by rw [expand], by rw [expand], by rw [expand], ?_⟩
  rintro ⟨e1, he1⟩ ⟨e2, he2⟩
  rw [expand]
  simp [errLogOf, he1, he2]

/-- Concrete instance of C1's amended theorem: both leading providers throw,
the third succeeds; the log has exactly the 2 error entries. -/
theorem fetchTranscript_chain3_witness :
    (fetchTranscript "vid0"
        [⟨"api", true, .err "boom1"⟩, ⟨"ytdlp", true, .err "boom2"⟩,
          ⟨"whisper", true, .ok ⟨"text", none, none, .whisper⟩⟩] false).result =
      .ok ⟨"text", none, none, .whisper⟩ ∧
    (fetchTranscript "vid0"
        [⟨"api", true, .err "boom1"⟩, ⟨"ytdlp", true, .err "boom2"⟩,
          ⟨"whisper", true, .ok ⟨"text", none, none, .whisper⟩⟩] false).log.length = 2 := by
  have h := fetchTranscript_chain3 "vid0"
    ⟨"api", true, .err "boom1"⟩ ⟨"ytdlp", true, .err "boom2"⟩
    ⟨"whisper", true, .ok ⟨"text", none, none, .whisper⟩⟩ [] ⟨"text", none, none, .whisper⟩
    rfl rfl rfl (Or.inr ⟨"boom1", rfl⟩) (Or.inr ⟨"boom2", rfl⟩) rfl
  exact ⟨h.1, h.2.2.2 ⟨"boom1", rfl⟩ ⟨"boom2", rfl⟩⟩

/-- C1 counterexample: the claim as stated requires the attempt log to hold
exactly 2 entries whenever the first two providers return `Absent` or throw;
but when both return `Absent` the code logs nothing, so the log is empty. -/
theorem fetchTranscript_chain3_cex :
    (fetchTranscript "vid0"
        [⟨"api", true, .absent⟩, ⟨"ytdlp", true, .absent⟩,
          ⟨"whisper", true, .ok ⟨"text", none, none, .whisper⟩⟩] false).result =
      .ok ⟨"text", none, none, .whisper⟩ ∧
    (fetchTranscript "vid0"
        [⟨"api", true, .absent⟩, ⟨"ytdlp", true, .absent⟩,
          ⟨"whisper", true, .ok ⟨"text", none, none, .whisper⟩⟩] false).log.length = 0 ∧
    ¬ (fetchTranscript "vid0"
        [⟨"api", true, .absent⟩, ⟨"ytdlp", true, .absent⟩,
          ⟨"whisper", true, .ok ⟨"text", none, none, .whisper⟩⟩] false).log.length = 2 := by
  refine ⟨rfl, rfl, ?_⟩
  decide

/-! ### Claim C2 -/

/-- C2: with `noFallback = true`, the first provider whose availability probe
passes (every provider before it being unavailable) and which does not produce
a result makes `fetchTranscript` throw immediately: an `Absent` (null) outcome
raises the "no transcript available" error and a thrown error is re-raised;
in both cases that provider is the only one ever invoked — no provider later
in the chain runs. -/
theorem fetchTranscript_noFallback_terminal (vid : String)
    (pre : List ModelProvider) (p : ModelProvider) (post : List ModelProvider)
    (hpre : ∀ q ∈ pre, q.available = false) (hp : p.available = true)
    (hnr : ∀ r, p.outcome ≠ .ok r) :
    (fetchTranscript vid (pre ++ p :: post) true).invoked = [p.name] ∧
    (p.outcome = .absent →
      (fetchTranscript vid (pre ++ p :: post) true).result =
        .thrown (noTranscriptMsg p.name vid)) ∧
    (∀ e, p.outcome = .err e →
      (fetchTranscript vid (pre ++ p :: post) true).result = .thrown e) := by
  have expand : fetchTranscript vid (pre ++ p :: post) true =
      fetchTranscriptAux vid true (pre ++ p :: post).length (p :: post) [] [] := by
    unfold fetchTranscript
    exact fetchTranscriptAux_skip_unavailable vid true _ pre (p :: post) [] [] hpre
  cases ho : p.outcome with
  | ok r => exact absurd ho (hnr r)
  | absent =>
    rw [expand]
    refine ⟨?_, ?_, ?_⟩
    · simp [fetchTranscriptAux, hp, ho]
    · intro _; simp [fetchTranscriptAux, hp, ho]
    · intro e he; exact FetchOutcome.noConfusion he
  | err e =>
    rw [expand]
    refine ⟨?_, ?_, ?_⟩
    · simp [fetchTranscriptAux, hp, ho]
    · intro h; exact FetchOutcome.noConfusion h
    · intro e' he'
      injection he' with h
      subst h
      simp [fetchTranscriptAux, hp, ho]

/-- Concrete instance of C2: an unavailable provider followed by an available
one whose fetch throws "boom", with a further provider behind it; the run
re-raises "boom" and invokes only the throwing provider. -/
theorem fetchTranscript_noFallback_terminal_witness :
    (fetchTranscript "vid0"
        [⟨"api", false, .absent⟩, ⟨"ytdlp", true, .err "boom"⟩,
          ⟨"whisper", true, .ok ⟨"t", none, none, .whisper⟩⟩] true).invoked = ["ytdlp"] ∧
    (fetchTranscript "vid0"
        [⟨"api", false, .absent⟩, ⟨"ytdlp", true, .err "boom"⟩,
          ⟨"whisper", true, .ok ⟨"t", none, none, .whisper⟩⟩] true).result =
      .thrown "boom" := by
  have h := fetchTranscript_noFallback_terminal "vid0"
    [⟨"api", false, .absent⟩] ⟨"ytdlp", true, .err "boom"⟩
    [⟨"whisper", true, .ok ⟨"t", none, none, .whisper⟩⟩]
    (by intro q hq; simp at hq; rw [hq]) rfl (by intro r h; cases h)
  exact ⟨h.1, h.2.2 "boom" rfl⟩

/-! ### Claim C3 -/

/-- C3 (amended): when a fallback-enabled run exhausts the chain (no available
provider returns a result), `fetchTranscript` throws the aggregate error whose
message lists the chain length and then one line `  - name: message` per
available provider whose fetch threw; providers whose availability probe was
negative are skipped silently and contribute no line at all (there is no
"skipped — unavailable" line), and `Absent` outcomes likewise contribute no
line. -/
theorem fetchTranscript_exhausted (vid : String) (ps : List ModelProvider)
    (h : ∀ p ∈ ps, p.available = true → ∀ r, p.outcome ≠ .ok r) :
    (fetchTranscript vid ps false).result =
      .thrown (aggregateMsg vid ps.length (attemptLog ps)) ∧
    (fetchTranscript vid ps false).log = attemptLog ps ∧
    (fetchTranscript vid ps false).invoked = invokedOf ps := by
  unfold fetchTranscript
  rw [fetchTranscriptAux_exhaust vid ps.length ps [] [] h]
  simp

/-- Concrete instance of C3's amended theorem: one unavailable provider and
one erroring provider produce an aggregate message with a single error line. -/
theorem fetchTranscript_exhausted_witness :
    (fetchTranscript "vid0" [⟨"api", false, .absent⟩, ⟨"ytdlp", true, .err "boom"⟩]
        false).result =
      .thrown ("Failed to get transcript for video vid0.\n" ++
        "Tried 2 provider(s):\n" ++ "  - ytdlp: boom") := by
  have h := fetchTranscript_exhausted "vid0"
    [⟨"api", false, .absent⟩, ⟨"ytdlp", true, .err "boom"⟩]
    (by
      intro p hp hav r
      simp at hp
      rcases hp with hp | hp
      · rw [hp] at hav; simp at hav
      · rw [hp]; simp)
  rw [h.1]
  rfl

/-- C3 counterexample: the claim as stated requires the aggregate message to
contain the line "skipped — unavailable" for providers whose availability
probe was negative; the code emits no such line (the message for a chain with
an unavailable "api" provider and an erroring "ytdlp" provider mentions only
the latter, and the phrase "skipped — unavailable" does not occur in it). -/
theorem fetchTranscript_exhausted_cex :
    (fetchTranscript "vid0" [⟨"api", false, .absent⟩, ⟨"ytdlp", true, .err "boom"⟩]
        false).result =
      .thrown "Failed to get transcript for video vid0.\nTried 2 provider(s):\n  - ytdlp: boom" ∧
    containsSub "skipped — unavailable".toList
      "Failed to get transcript for video vid0.\nTried 2 provider(s):\n  - ytdlp: boom".toList =
        false := by
  constructor
  · rfl
  · decide

/-! ## Tool detection (src/tools.ts) -/

/-- `WhisperBackend` from src/tools.ts: `whisper-cpp`, `whisper`,
`mlx-whisper` (each with a resolved path), or `openai-api`. -/
inductive WhisperBackend
  | whisperCpp (path : String)
  | whisperCli (path : String)
  | mlxWhisper (path : String)
  | openaiApi
deriving DecidableEq, Repr

/-- The host environment probed by `detectWhisper`: the `which` results for
the three binary names, the stdout of `<whisper> --help 2>&1` (`none` when
that subprocess invocation threw), and the `OPENAI_API_KEY` variable. -/
structure ToolEnv where
  whisperCppPath : Option String := none
  whisperPath : Option String := none
  mlxWhisperPath : Option String := none
  helpOutput : Option String := none
  openaiKey : Option String := none
deriving Repr

/-- `detectWhisper()` from src/tools.ts: check `whisper-cpp`, then the
ambiguous `whisper` binary (disambiguated by its help output containing
"whisper.cpp", defaulting to the openai-whisper CLI when the probe throws),
then `mlx_whisper`, then the OpenAI API key. -/
def detectWhisper (te : ToolEnv) : Option WhisperBackend :=
  match te.whisperCppPath with
  | some p => some (.whisperCpp p)
  | none =>
    match te.whisperPath with
    | some p =>
      match te.helpOutput with
      | some out =>
        if containsSub "whisper.cpp".toList out.toList then some (.whisperCpp p)
        else some (.whisperCli p)
      | none => some (.whisperCli p)
    | none =>
      match te.mlxWhisperPath with
      | some p => some (.mlxWhisper p)
      | none =>
        if (te.openaiKey.getD "") ≠ "" then some .openaiApi else none

/-! ## Provider resolver (src/api.ts and src/providers/index.ts lines 273-363) -/

/-- The process environment variables read by src/api.ts. -/
structure EnvConfig where
  envToken : Option String := none
  envApiUrl : Option String := none
deriving Repr

def DEFAULT_API_URL : String := "https://www.youtube-transcript.io/api/transcripts"

/-- JavaScript `a || b` on strings (the empty string is falsy). -/
def jsOrElse (a b : String) : String := if a = "" then b else a

/-- `resolveApiUrl(cliValue)` from src/api.ts:
`cliValue?.trim() || env.YOUTUBE_TRANSCRIPT_API_URL?.trim() || DEFAULT_API_URL`. -/
def resolveApiUrl (e : EnvConfig) (cliValue : Option String) : String :=
  jsOrElse ((cliValue.map String.trim).getD "")
    (jsOrElse ((e.envApiUrl.map String.trim).getD "") DEFAULT_API_URL)

/-- `resolveApiToken(cliValue)` from src/api.ts:
`cliValue?.trim() || env.YOUTUBE_TRANSCRIPT_API_TOKEN?.trim() || ""`. -/
def resolveApiToken (e : EnvConfig) (cliValue : Option String) : String :=
  jsOrElse ((cliValue.map String.trim).getD "")
    (jsOrElse ((e.envToken.map String.trim).getD "") "")

/-- The `provider` option: `"api" | "ytdlp" | "whisper" | "auto"`. -/
inductive ForcedProvider
  | api
  | ytdlp
  | whisper
  | auto
deriving DecidableEq, Repr

/-- `ProviderOptions` from src/providers/index.ts (the `noFallback` flag is
consumed by `fetchTranscript`, not by the resolver). -/
structure ProviderOptions where
  token : Option String := none
  apiUrl : Option String := none
  provider : Option ForcedProvider := none
  whisperModel : Option String := none
  lang : Option String := none
deriving Repr

/-- A provider instance as constructed by the resolver, identified by its
constructor arguments (`new ApiProvider(token, apiUrl)`,
`new YtdlpProvider(lang)`, `new WhisperProvider(backend, model, lang)`). -/
inductive ProviderSpec
  | api (token : String) (apiUrl : String)
  | ytdlp (lang : Option String)
  | whisper (backend : WhisperBackend) (model : Option String) (lang : Option String)
deriving DecidableEq, Repr

/-- Results of the two host probes the resolver performs up front:
`await hasYtdlp()` and `await detectWhisper()`. -/
structure Probe where
  ytdlpAvailable : Bool
  whisperBackend : Option WhisperBackend
deriving Repr

def apiTokenErrorMsg : String :=
  "API provider requires a token. Set YOUTUBE_TRANSCRIPT_API_TOKEN or use --token."

def ytdlpMissingMsg : String :=
  "yt-dlp provider requested but yt-dlp is not installed.\nInstall it with: brew install yt-dlp"

def whisperNeedsYtdlpMsg : String :=
  "Whisper provider requires yt-dlp for audio download.\nInstall it with: brew install yt-dlp"

def whisperNoBackendMsg : String :=
  "Whisper provider requested but no whisper backend is available.\n" ++
    "Install one of:\n  - whisper.cpp: brew install whisper-cpp\n" ++
    "  - OpenAI whisper: pip install openai-whisper\n" ++
    "  - MLX whisper: pip install mlx-whisper\n" ++
    "  - Or set OPENAI_API_KEY for API transcription"

def noProviderAvailableMsg : String :=
  "No transcript provider available.\n\nTo fix this, either:\n" ++
    "  - Set YOUTUBE_TRANSCRIPT_API_TOKEN for API access\n" ++
    "  - Install yt-dlp: brew install yt-dlp\n" ++
    "  - Install whisper: pip install openai-whisper"

/-- The three advisory warnings pushed at the end of auto mode. -/
def autoWarnings (token : String) (probe : Probe) : List String :=
  (if token = "" then ["No API token set. Using yt-dlp for subtitles."] else []) ++
  (if probe.ytdlpAvailable = false ∧ token ≠ "" then
    ["yt-dlp not found. No fallback if API fails."] else []) ++
  (if probe.ytdlpAvailable = true ∧ probe.whisperBackend = none then
    ["No whisper backend found. Cannot transcribe videos without subtitles."] else [])

/-- `resolveProviders(options)` from src/providers/index.ts.  A thrown
`Error` is modelled as `Except.error` of its message. -/
def resolveProviders (e : EnvConfig) (probe : Probe) (options : ProviderOptions) :
    Except String (List ProviderSpec × List String) :=
  let token := resolveApiToken e options.token
  let apiUrl := resolveApiUrl e options.apiUrl
  match options.provider with
  | some .api =>
    if token = "" then .error apiTokenErrorMsg
    else .ok ([.api token apiUrl], [])
  | some .ytdlp =>
    if !probe.ytdlpAvailable then .error ytdlpMissingMsg
    else .ok ([.ytdlp options.lang], [])
  | some .whisper =>
    if !probe.ytdlpAvailable then .error whisperNeedsYtdlpMsg
    else
      match probe.whisperBackend with
      | none => .error whisperNoBackendMsg
      | some b => .ok ([.whisper b options.whisperModel options.lang], [])
  | _ =>
    let providers :=
      (if token ≠ "" then [ProviderSpec.api token apiUrl] else []) ++
      (if probe.ytdlpAvailable then
        ProviderSpec.ytdlp options.lang ::
          (match probe.whisperBackend with
           | some b => [ProviderSpec.whisper b options.whisperModel options.lang]
           | none => [])
       else [])
    if providers.isEmpty then .error noProviderAvailableMsg
    else .ok (providers, autoWarnings token probe)

/-- The auto-mode chain as the spec presents it: the API provider iff a token
is configured, then the yt-dlp provider iff the tool is detectable, then the
whisper provider iff yt-dlp is detectable and a backend was found. -/
def autoChain (e : EnvConfig) (probe : Probe) (o : ProviderOptions) : List ProviderSpec :=
  (if resolveApiToken e o.token ≠ "" then
    [ProviderSpec.api (resolveApiToken e o.token) (resolveApiUrl e o.apiUrl)] else []) ++
  (if probe.ytdlpAvailable then [ProviderSpec.ytdlp o.lang] else []) ++
  (if probe.ytdlpAvailable then
    match probe.whisperBackend with
    | some b => [ProviderSpec.whisper b o.whisperModel o.lang]
    | none => []
   else [])

/-! ### Claim C4 -/

/-- C4: in forced mode the resolver either fails immediately with the
configuration error for the unmet prerequisite (api without a resolved token;
ytdlp without the tool; whisper without yt-dlp or without a detected backend)
— the resolver performs no fetch, so the failure precedes any network call —
or returns a chain of exactly one provider, the forced one, with no silent
fallback and no warnings. -/
theorem resolveProviders_forced (e : EnvConfig) (probe : Probe) (o : ProviderOptions)
    (f : ForcedProvider) (hf : o.provider = some f) (hna : f ≠ .auto) :
    (f = .api →
      (resolveApiToken e o.token = "" →
        resolveProviders e probe o = .error apiTokenErrorMsg) ∧
      (resolveApiToken e o.token ≠ "" →
        resolveProviders e probe o =
          .ok ([.api (resolveApiToken e o.token) (resolveApiUrl e o.apiUrl)], []))) ∧
    (f = .ytdlp →
      (probe.ytdlpAvailable = false →
        resolveProviders e probe o = .error ytdlpMissingMsg) ∧
      (probe.ytdlpAvailable = true →
        resolveProviders e probe o = .ok ([.ytdlp o.lang], []))) ∧
    (f = .whisper →
      (probe.ytdlpAvailable = false →
        resolveProviders e probe o = .error whisperNeedsYtdlpMsg) ∧
      (probe.ytdlpAvailable = true → probe.whisperBackend = none →
        resolveProviders e probe o = .error whisperNoBackendMsg) ∧
      (∀ b, probe.ytdlpAvailable = true → probe.whisperBackend = some b →
        resolveProviders e probe o = .ok ([.whisper b o.whisperModel o.lang], []))) := by
  refine ⟨?_, ?_, ?_⟩
  · rintro rfl
    constructor
    · intro ht; simp [resolveProviders, hf, ht]
    · intro ht; simp [resolveProviders, hf, ht]
  · rintro rfl
    constructor
    · intro hyt; simp [resolveProviders, hf, hyt]
    · intro hyt; simp [resolveProviders, hf, hyt]
  · rintro rfl
    refine ⟨?_, ?_, ?_⟩
    · intro hyt; simp [resolveProviders, hf, hyt]
    · intro hyt hwb; simp [resolveProviders, hf, hyt, hwb]
    · intro b hyt hwb; simp [resolveProviders, hf, hyt, hwb]

/-- Concrete instances of C4: forcing `api` with no token configured fails
with the configuration error; forcing `ytdlp` with the tool present yields a
one-element chain. -/
theorem resolveProviders_forced_witness :
    resolveProviders ⟨none, none⟩ ⟨true, none⟩
        { provider := some .api } = .error apiTokenErrorMsg ∧
    resolveProviders ⟨none, none⟩ ⟨true, none⟩
        { provider := some .ytdlp } = .ok ([.ytdlp none], []) := by
  constructor
  · exact ((resolveProviders_forced ⟨none, none⟩ ⟨true, none⟩
      { provider := some .api } .api rfl (by decide)).1 rfl).1 rfl
  · exact ((resolveProviders_forced ⟨none, none⟩ ⟨true, none⟩
      { provider := some .ytdlp } .ytdlp rfl (by decide)).2.1 rfl).2 rfl

/-! ### Claim C5 -/

/-- C5: in auto mode (provider unset or "auto") the resolver fails with the
no-provider error exactly when no token is configured and yt-dlp is absent;
otherwise it succeeds with the priority-ordered chain `autoChain` — which
contains the API provider iff a token is configured, the yt-dlp provider iff
the tool is detectable, and the whisper provider iff the yt-dlp provider is
included and a backend was detected — together with the advisory warnings
`autoWarnings` (gaps are warnings on the success path, not errors). -/
theorem resolveProviders_auto (e : EnvConfig) (probe : Probe) (o : ProviderOptions)
    (hf : o.provider = none ∨ o.provider = some .auto) :
    (resolveApiToken e o.token = "" ∧ probe.ytdlpAvailable = false →
      resolveProviders e probe o = .error noProviderAvailableMsg) ∧
    (resolveApiToken e o.token ≠ "" ∨ probe.ytdlpAvailable = true →
      resolveProviders e probe o =
        .ok (autoChain e probe o, autoWarnings (resolveApiToken e o.token) probe)) ∧
    ((ProviderSpec.api (resolveApiToken e o.token) (resolveApiUrl e o.apiUrl) ∈
        autoChain e probe o) ↔ resolveApiToken e o.token ≠ "") ∧
    ((ProviderSpec.ytdlp o.lang ∈ autoChain e probe o) ↔ probe.ytdlpAvailable = true) ∧
    (∀ b, (ProviderSpec.whisper b o.whisperModel o.lang ∈ autoChain e probe o) ↔
      ((ProviderSpec.ytdlp o.lang ∈ autoChain e probe o) ∧
        probe.whisperBackend = some b)) := by
  have hchain : ∀ b, probe.whisperBackend = some b →
      (match probe.whisperBackend with
        | some b' => [ProviderSpec.whisper b' o.whisperModel o.lang]
        | none => []) = [ProviderSpec.whisper b o.whisperModel o.lang] := by
    intro b hb; rw [hb]
  rcases hf with hf | hf <;>
    (by_cases ht : resolveApiToken e o.token = "" <;>
      cases hyt : probe.ytdlpAvailable <;>
        cases hwb : probe.whisperBackend <;>
          simp [resolveProviders, autoChain, autoWarnings, hf, ht, hyt, hwb] <;>
            exact fun b => eq_comm)

/-- Concrete instance of C5: no token, yt-dlp present, a whisper.cpp backend
detected — the chain is `[ytdlp, whisper]` and the missing token surfaces as
an advisory warning on the success path. -/
theorem resolveProviders_auto_witness :
    resolveProviders ⟨none, none⟩ ⟨true, some (.whisperCpp "/usr/local/bin/whisper-cpp")⟩
        {} =
      .ok ([.ytdlp none,
            .whisper (.whisperCpp "/usr/local/bin/whisper-cpp") none none],
        ["No API token set. Using yt-dlp for subtitles."]) := by
  have h := (resolveProviders_auto ⟨none, none⟩
    ⟨true, some (.whisperCpp "/usr/local/bin/whisper-cpp")⟩ {} (Or.inl rfl)).2.1
    (Or.inr rfl)
  exact h.trans rfl

/-! ### Claim C6 -/

/-- C6: `detectWhisper` selects a backend in priority order — the
`whisper-cpp` binary, then the ambiguous `whisper` binary (classified as
whisper.cpp when its help output contains "whisper.cpp", as the Python-style
CLI otherwise, and as the Python-style CLI when the help probe itself
throws), then the `mlx_whisper` CLI, then the OpenAI cloud API, which
requires a non-empty `OPENAI_API_KEY` credential. -/
theorem detectWhisper_priority (te : ToolEnv) :
    (∀ p, te.whisperCppPath = some p → detectWhisper te = some (.whisperCpp p)) ∧
    (∀ p out, te.whisperCppPath = none → te.whisperPath = some p →
      te.helpOutput = some out → containsSub "whisper.cpp".toList out.toList = true →
      detectWhisper te = some (.whisperCpp p)) ∧
    (∀ p out, te.whisperCppPath = none → te.whisperPath = some p →
      te.helpOutput = some out → containsSub "whisper.cpp".toList out.toList = false →
      detectWhisper te = some (.whisperCli p)) ∧
    (∀ p, te.whisperCppPath = none → te.whisperPath = some p → te.helpOutput = none →
      detectWhisper te = some (.whisperCli p)) ∧
    (∀ p, te.whisperCppPath = none → te.whisperPath = none →
      te.mlxWhisperPath = some p → detectWhisper te = some (.mlxWhisper p)) ∧
    (te.whisperCppPath = none → te.whisperPath = none → te.mlxWhisperPath = none →
      (te.openaiKey.getD "") ≠ "" → detectWhisper te = some .openaiApi) ∧
    (te.whisperCppPath = none → te.whisperPath = none → te.mlxWhisperPath = none →
      (te.openaiKey.getD "") = "" → detectWhisper te = none) := by
  refine ⟨?_, ?_, ?_, ?_, ?_, ?_, ?_⟩
  · intro p h1; simp [detectWhisper, h1]
  · intro p out h1 h2 h3 h4
    simp only [detectWhisper, h1, h2, h3]
    rw [h4]
    simp
  · intro p out h1 h2 h3 h4
    simp only [detectWhisper, h1, h2, h3]
    rw [h4]
    simp
  · intro p h1 h2 h3; simp [detectWhisper, h1, h2, h3]
  · intro p h1 h2 h3; simp [detectWhisper, h1, h2, h3]
  · intro h1 h2 h3 h4; simp [detectWhisper, h1, h2, h3, h4]
  · intro h1 h2 h3 h4; simp [detectWhisper, h1, h2, h3, h4]

/-- Concrete instance of C6: the ambiguous `whisper` binary whose help probe
throws is classified as the Python-style whisper CLI. -/
theorem detectWhisper_priority_witness :
    detectWhisper ⟨none, some "/usr/bin/whisper", none, none, none⟩ =
      some (.whisperCli "/usr/bin/whisper") :=
  (detectWhisper_priority ⟨none, some "/usr/bin/whisper", none, none, none⟩).2.2.2.1
    "/usr/bin/whisper" rfl rfl rfl

/-! ## Subtitle parser (src/providers/ytdlp.ts lines 534-669)

The parser is embedded at the character-list level so that the JavaScript
regular-expression passes become explicit scanners.  Each `String.replace`
pass is a left-to-right scan that never revisits emitted output (exactly the
semantics of a global regex replace); the scan functions take a fuel argument
`length + 1`, which is always sufficient because every step consumes at least
one input character. -/

/-- The JavaScript `\s` character class (also the set trimmed by
`String.prototype.trim`). -/
def jsIsSpace (c : Char) : Bool :=
  let n := c.toNat
  n == 0x20 || n == 0x09 || n == 0x0a || n == 0x0b || n == 0x0c || n == 0x0d ||
    n == 0xa0 || n == 0x1680 || (decide (0x2000 ≤ n) && decide (n ≤ 0x200a)) ||
    n == 0x2028 || n == 0x2029 || n == 0x202f || n == 0x205f || n == 0x3000 ||
    n == 0xfeff

/-- JavaScript `String.prototype.trim`. -/
def trimChars (cs : List Char) : List Char :=
  ((cs.dropWhile jsIsSpace).reverse.dropWhile jsIsSpace).reverse

/-- `block.split("\n")`. -/
def splitLinesAux : List Char → List Char → List (List Char)
  | cur, [] => [cur.reverse]
  | cur, c :: rest =>
    if c = '\n' then cur.reverse :: splitLinesAux [] rest
    else splitLinesAux (c :: cur) rest

def splitLines (cs : List Char) : List (List Char) := splitLinesAux [] cs

/-- `content.split(/\n\n+/)`: split on maximal runs of two or more newlines.
`cur` is the reversed current piece and `nl` counts the newlines seen since
the last non-newline character. -/
def splitNlRunsAux : List Char → Nat → List Char → List (List Char)
  | cur, nl, [] =>
    if 2 ≤ nl then [cur.reverse, []]
    else [(List.replicate nl '\n' ++ cur).reverse]
  | cur, nl, c :: rest =>
    if c = '\n' then splitNlRunsAux cur (nl + 1) rest
    else if 2 ≤ nl then cur.reverse :: splitNlRunsAux [c] 0 rest
    else splitNlRunsAux (c :: (List.replicate nl '\n' ++ cur)) 0 rest

def splitNlRuns (cs : List Char) : List (List Char) := splitNlRunsAux [] 0 cs

/-- One global-replace pass: at each position, try `matcher`; on a match emit
its replacement and resume after the consumed characters (never rescanning
the replacement), otherwise keep one character.  Every matcher below consumes
at least one character, so fuel `length + 1` never runs out. -/
def scanReplaceAux (matcher : List Char → Option (List Char × List Char)) :
    Nat → List Char → List Char
  | 0, cs => cs
  | _ + 1, [] => []
  | fuel + 1, c :: rest =>
    match matcher (c :: rest) with
    | some (out, rem) => out ++ scanReplaceAux matcher fuel rem
    | none => c :: scanReplaceAux matcher fuel rest

def scanReplace (matcher : List Char → Option (List Char × List Char))
    (cs : List Char) : List Char :=
  scanReplaceAux matcher (cs.length + 1) cs

/-- Consume `[^>]*` then `>`, returning the remainder. -/
def matchSpanGt : List Char → Option (List Char)
  | [] => none
  | c :: rest => if c = '>' then some rest else matchSpanGt rest

/-- Matcher for `/<\/?c[^>]*>/`. -/
def ctagMatcher : List Char → Option (List Char × List Char)
  | '<' :: '/' :: 'c' :: rest => (matchSpanGt rest).map (fun rem => ([], rem))
  | '<' :: 'c' :: rest => (matchSpanGt rest).map (fun rem => ([], rem))
  | _ => none

/-- Matcher for `/<\d{2}:\d{2}:\d{2}\.\d{3}>/`. -/
def tsMatcher : List Char → Option (List Char × List Char)
  | '<' :: d1 :: d2 :: ':' :: d3 :: d4 :: ':' :: d5 :: d6 :: '.' :: d7 :: d8 :: d9 :: '>' :: rest =>
    if d1.isDigit && d2.isDigit && d3.isDigit && d4.isDigit && d5.isDigit &&
        d6.isDigit && d7.isDigit && d8.isDigit && d9.isDigit then
      some ([], rest)
    else none
  | _ => none

/-- Matcher for `/<[^>]+>/`. -/
def tagMatcher : List Char → Option (List Char × List Char)
  | '<' :: c :: rest =>
    if c = '>' then none else (matchSpanGt (c :: rest)).map (fun rem => ([], rem))
  | _ => none

/-- Matcher for a fixed-string replacement (the HTML-entity passes). -/
def entityMatcher (pat rep : List Char) (cs : List Char) :
    Option (List Char × List Char) :=
  if pat ≠ [] ∧ isPrefixOfC pat cs = true then some (rep, cs.drop pat.length)
  else none

/-- `/\s+/g → " "`. -/
def collapseWsAux : Nat → List Char → List Char
  | 0, cs => cs
  | _ + 1, [] => []
  | fuel + 1, c :: rest =>
    if jsIsSpace c then ' ' :: collapseWsAux fuel (rest.dropWhile jsIsSpace)
    else c :: collapseWsAux fuel rest

def collapseWs (cs : List Char) : List Char := collapseWsAux (cs.length + 1) cs

/-- `/^X.*Y$/` for single delimiter characters (`.` cannot fail to match here
since the tested string contains no line terminators at this point). -/
def isDelimited (l r : Char) : List Char → Bool
  | c :: rest => c == l && !rest.isEmpty && rest.getLast? == some r
  | [] => false

/-- `cleanSubtitleLine(line)` from src/providers/ytdlp.ts: strip `<c>` tags,
per-word timestamp tags and generic tags, decode six HTML entities, collapse
whitespace and trim, drop pure `[...]`/`♪...♪` annotation lines, then strip
remaining `♪` characters and trim. -/
def cleanSubtitleLine (line : List Char) : List Char :=
  let c1 := scanReplace ctagMatcher line
  let c2 := scanReplace tsMatcher c1
  let c3 := scanReplace tagMatcher c2
  let c4 := scanReplace (entityMatcher "&nbsp;".toList [' ']) c3
  let c5 := scanReplace (entityMatcher "&amp;".toList ['&']) c4
  let c6 := scanReplace (entityMatcher "&lt;".toList ['<']) c5
  let c7 := scanReplace (entityMatcher "&gt;".toList ['>']) c6
  let c8 := scanReplace (entityMatcher "&quot;".toList ['"']) c7
  let c9 := scanReplace (entityMatcher "&#39;".toList ['\'']) c8
  let c10 := trimChars (collapseWs c9)
  if isDelimited '[' ']' c10 || isDelimited '♪' '♪' c10 then []
  else trimChars (c10.filter (fun c => c != '♪'))

/-- `/^\d+$/` on an (already trimmed) string. -/
def isAllDigits (cs : List Char) : Bool := !cs.isEmpty && cs.all Char.isDigit

/-- `/^\d{2}:\d{2}/`. -/
def startsTimestamp : List Char → Bool
  | d1 :: d2 :: c :: d3 :: d4 :: _ =>
    d1.isDigit && d2.isDigit && c == ':' && d3.isDigit && d4.isDigit
  | _ => false

/-- The skip conditions of the `parseVtt` line loop. -/
def vttLineSkip (line : List Char) : Bool :=
  isPrefixOfC "WEBVTT".toList line || isPrefixOfC "Kind:".toList line ||
    isPrefixOfC "Language:".toList line || isPrefixOfC "NOTE".toList line ||
    isAllDigits (trimChars line) || startsTimestamp line ||
    containsSub "-->".toList line

/-- The skip conditions of the `parseSrt` line loop. -/
def srtLineSkip (line : List Char) : Bool :=
  isAllDigits (trimChars line) || containsSub "-->".toList line

/-- The shared cue-line loop of `parseVtt`/`parseSrt`: skip structural lines,
clean, drop empty results, and push unseen lines (the `seenLines` set holds
exactly the pushed lines, so membership in the accumulator is equivalent). -/
def cueLinesAux (skip : List Char → Bool) :
    List (List Char) → List (List Char) → List (List Char)
  | acc, [] => acc
  | acc, line :: rest =>
    if skip line then cueLinesAux skip acc rest
    else
      let cleaned := cleanSubtitleLine line
      if cleaned.isEmpty then cueLinesAux skip acc rest
      else if cleaned ∈ acc then cueLinesAux skip acc rest
      else cueLinesAux skip (acc ++ [cleaned]) rest

/-- All lines of all cue blocks, in document order (the dedup set is shared
across blocks in the source, so the block structure only removes the blank
separator lines). -/
def cueDocLines (content : List Char) : List (List Char) :=
  ((splitNlRuns content).map splitLines).flatten

def parseVttLines (content : List Char) : List (List Char) :=
  cueLinesAux vttLineSkip [] (cueDocLines content)

/-- `parseVtt(content)`: the kept lines joined with `" "`. -/
def parseVtt (content : String) : String :=
  (List.intercalate [' '] (parseVttLines content.toList)).asString

def parseSrtLines (content : List Char) : List (List Char) :=
  cueLinesAux srtLineSkip [] (cueDocLines content)

/-- `parseSrt(content)`: the kept lines joined with `" "`. -/
def parseSrt (content : String) : String :=
  (List.intercalate [' '] (parseSrtLines content.toList)).asString

/-- The candidate lines of a document: every non-skipped line whose cleaned
form is non-empty, in document order, before deduplication. -/
def cueCandidates (skip : List Char → Bool) (lns : List (List Char)) :
    List (List Char) :=
  lns.filterMap (fun line =>
    if skip line then none
    else
      let cleaned := cleanSubtitleLine line
      if cleaned.isEmpty then none else some cleaned)

/-- Specification-side deduplication: keep the first occurrence of each
element, preserving first-seen order. -/
def firstSeenDedup : List (List Char) → List (List Char)
  | [] => []
  | x :: xs => x :: firstSeenDedup (xs.filter (fun y => y != x))
termination_by l => l.length
decreasing_by
  simp only [List.length_cons]
  exact Nat.lt_succ_of_le (List.length_filter_le _ _)

/-! ### Deduplication lemmas -/

theorem firstSeenDedup_subset (xs : List (List Char)) :
    ∀ y, y ∈ firstSeenDedup xs → y ∈ xs := by
  induction xs using firstSeenDedup.induct with
  | case1 => intro y hy; simp [firstSeenDedup] at hy
  | case2 x xs ih =>
    intro y hy
    rw [firstSeenDedup] at hy
    rcases List.mem_cons.mp hy with h | h
    · exact h ▸ List.mem_cons_self _ _
    · exact List.mem_cons_of_mem _ (List.mem_of_mem_filter (ih y h))

theorem firstSeenDedup_nodup (xs : List (List Char)) : (firstSeenDedup xs).Nodup := by
  induction xs using firstSeenDedup.induct with
  | case1 => simp [firstSeenDedup]
  | case2 x xs ih =>
    rw [firstSeenDedup]
    refine List.nodup_cons.mpr ⟨?_, ih⟩
    intro hx
    have hmem := firstSeenDedup_subset _ _ hx
    have := List.of_mem_filter hmem
    simp at this

theorem firstSeenDedup_eq_self {xs : List (List Char)} (h : xs.Nodup) :
    firstSeenDedup xs = xs := by
  induction xs using firstSeenDedup.induct with
  | case1 => rw [firstSeenDedup]
  | case2 x xs ih =>
    rcases List.nodup_cons.mp h with ⟨hx, hxs⟩
    have hf : xs.filter (fun y => y != x) = xs := by
      apply List.filter_eq_self.mpr
      intro y hy
      simp only [bne_iff_ne, ne_eq, decide_eq_true_eq]
      intro hyx
      exact hx (hyx ▸ hy)
    rw [firstSeenDedup, ih (hxs.filter _), hf]

/-- The lines already pushed filter the candidates still to come. -/
def removeSeen (acc xs : List (List Char)) : List (List Char) :=
  xs.filter (fun x => decide (x ∉ acc))

theorem removeSeen_nil (xs : List (List Char)) : removeSeen [] xs = xs := by
  simp [removeSeen]

theorem removeSeen_append_singleton (acc : List (List Char)) (c : List Char)
    (xs : List (List Char)) :
    removeSeen (acc ++ [c]) xs = (removeSeen acc xs).filter (fun y => y != c) := by
  unfold removeSeen
  rw [List.filter_filter]
  apply List.filter_congr
  intro x hx
  by_cases heq : x = c
  · subst heq; simp
  · by_cases hin : x ∈ acc <;> simp [hin, heq]

theorem cueLinesAux_eq (skip : List Char → Bool) (lns : List (List Char)) :
    ∀ acc, cueLinesAux skip acc lns =
      acc ++ firstSeenDedup (removeSeen acc (cueCandidates skip lns)) := by
  induction lns with
  | nil => intro acc; simp [cueLinesAux, cueCandidates, removeSeen, firstSeenDedup]
  | cons line rest ih =>
    intro acc
    by_cases hskip : skip line = true
    · rw [show cueLinesAux skip acc (line :: rest) = cueLinesAux skip acc rest by
        simp [cueLinesAux, hskip]]
      rw [show cueCandidates skip (line :: rest) = cueCandidates skip rest by
        simp [cueCandidates, hskip]]
      exact ih acc
    · by_cases hclean : (cleanSubtitleLine line).isEmpty = true
      · have hclean' : cleanSubtitleLine line = [] := by simpa using hclean
        rw [show cueLinesAux skip acc (line :: rest) = cueLinesAux skip acc rest by
          simp [cueLinesAux, hskip, hclean]]
        rw [show cueCandidates skip (line :: rest) = cueCandidates skip rest by
          simp [cueCandidates, hskip, hclean']]
        exact ih acc
      · have hclean' : ¬ cleanSubtitleLine line = [] := by simpa using hclean
        have hcand : cueCandidates skip (line :: rest) =
            cleanSubtitleLine line :: cueCandidates skip rest := by
          simp [cueCandidates, hskip, hclean']
        by_cases hmem : cleanSubtitleLine line ∈ acc
        · rw [show cueLinesAux skip acc (line :: rest) = cueLinesAux skip acc rest by
            simp [cueLinesAux, hskip, hclean, hmem]]
          rw [hcand]
          rw [show removeSeen acc (cleanSubtitleLine line :: cueCandidates skip rest) =
              removeSeen acc (cueCandidates skip rest) by
            simp [removeSeen, List.filter_cons, hmem]]
          exact ih acc
        · rw [show cueLinesAux skip acc (line :: rest) =
              cueLinesAux skip (acc ++ [cleanSubtitleLine line]) rest by
            simp [cueLinesAux, hskip, hclean, hmem]]
          rw [ih (acc ++ [cleanSubtitleLine line])]
          rw [hcand]
          rw [show removeSeen acc (cleanSubtitleLine line :: cueCandidates skip rest) =
              cleanSubtitleLine line :: removeSeen acc (cueCandidates skip rest) by
            simp [removeSeen, List.filter_cons, hmem]]
          rw [firstSeenDedup, removeSeen_append_singleton]
          simp

/-! ### Claim C7 -/

/-- A VTT document in which the same rolling line appears in 5 consecutive
cues. -/
def rollingVttDoc : String :=
  "WEBVTT\nKind: captions\nLanguage: en\n\n" ++
    "00:00:00.000 --> 00:00:02.000\nhello world\n\n" ++
    "00:00:02.000 --> 00:00:04.000\nhello world\n\n" ++
    "00:00:04.000 --> 00:00:06.000\nhello world\n\n" ++
    "00:00:06.000 --> 00:00:08.000\nhello world\n\n" ++
    "00:00:08.000 --> 00:00:10.000\nhello world\n"

/-- C7: both the VTT and the SRT parser deduplicate cleaned lines by exact
identity across the entire document — the kept lines are exactly the
first-seen-order dedup of all candidate lines of all cue blocks, hence free
of duplicates — and on a document whose rolling line appears in 5 consecutive
cues that line survives exactly once. -/
theorem parse_dedup_first_seen :
    (∀ content : List Char,
      parseVttLines content =
          firstSeenDedup (cueCandidates vttLineSkip (cueDocLines content)) ∧
        (parseVttLines content).Nodup) ∧
    (∀ content : List Char,
      parseSrtLines content =
          firstSeenDedup (cueCandidates srtLineSkip (cueDocLines content)) ∧
        (parseSrtLines content).Nodup) ∧
    List.count "hello world".toList (parseVttLines rollingVttDoc.toList) = 1 ∧
    parseVtt rollingVttDoc = "hello world" := by
  have hvtt : ∀ content : List Char,
      parseVttLines content =
        firstSeenDedup (cueCandidates vttLineSkip (cueDocLines content)) := by
    intro content
    unfold parseVttLines
    rw [cueLinesAux_eq vttLineSkip _ [], removeSeen_nil]
    simp
  have hsrt : ∀ content : List Char,
      parseSrtLines content =
        firstSeenDedup (cueCandidates srtLineSkip (cueDocLines content)) := by
    intro content
    unfold parseSrtLines
    rw [cueLinesAux_eq srtLineSkip _ [], removeSeen_nil]
    simp
  refine ⟨fun c => ⟨hvtt c, ?_⟩, fun c => ⟨hsrt c, ?_⟩, ?_, ?_⟩
  · rw [hvtt c]; exact firstSeenDedup_nodup _
  · rw [hsrt c]; exact firstSeenDedup_nodup _
  · rfl
  · rfl

/-! ### Line-structure lemmas for Claim C8 -/

/-- Join lines with single newlines (the document under test in C8). -/
def joinWithNl : List (List Char) → List Char
  | [] => []
  | [l] => l
  | l :: l2 :: rest => l ++ '\n' :: joinWithNl (l2 :: rest)

theorem splitLinesAux_no_nl (l : List Char) (h : '\n' ∉ l) :
    ∀ cur rest, splitLinesAux cur (l ++ rest) = splitLinesAux (l.reverse ++ cur) rest := by
  induction l with
  | nil => intro cur rest; simp
  | cons c l ih =>
    intro cur rest
    have hc : ¬ c = '\n' := fun hc => h (hc ▸ List.mem_cons_self c l)
    simp only [List.cons_append, splitLinesAux, if_neg hc, List.append_eq]
    rw [ih (fun hm => h (List.mem_cons_of_mem _ hm)) (c :: cur) rest]
    simp

theorem splitLines_joinWithNl (ls : List (List Char)) (hne : ls ≠ [])
    (h : ∀ l ∈ ls, '\n' ∉ l) : splitLines (joinWithNl ls) = ls := by
  induction ls with
  | nil => exact absurd rfl hne
  | cons l rest ih =>
    cases rest with
    | nil =>
      have h2 := splitLinesAux_no_nl l (h l (List.mem_cons_self _ _)) [] []
      simp [splitLinesAux] at h2
      simpa [splitLines, joinWithNl] using h2
    | cons l2 rest2 =>
      have hl : '\n' ∉ l := h l (List.mem_cons_self _ _)
      have hrest : ∀ x ∈ l2 :: rest2, '\n' ∉ x := fun x hx =>
        h x (List.mem_cons_of_mem _ hx)
      have ihr := ih (by simp) hrest
      show splitLinesAux [] (l ++ '\n' :: joinWithNl (l2 :: rest2)) = l :: l2 :: rest2
      rw [splitLinesAux_no_nl l hl [] ('\n' :: joinWithNl (l2 :: rest2))]
      simp only [splitLinesAux, if_pos rfl, List.append_nil, List.reverse_reverse]
      exact congrArg (l :: ·) ihr

/-- Detects two adjacent newline characters. -/
def hasDoubleNl : List Char → Bool
  | c1 :: c2 :: rest => (c1 == '\n' && c2 == '\n') || hasDoubleNl (c2 :: rest)
  | _ => false

theorem hasDoubleNl_cons_of_ne (c : Char) (hc : ¬ c = '\n') (xs : List Char) :
    hasDoubleNl (c :: xs) = hasDoubleNl xs := by
  cases xs with
  | nil => rfl
  | cons c2 r2 => simp [hasDoubleNl, hc]

theorem hasDoubleNl_tail {c : Char} {rest : List Char}
    (h : hasDoubleNl (c :: rest) = false) : hasDoubleNl rest = false := by
  cases rest with
  | nil => rfl
  | cons c2 r2 =>
    rw [hasDoubleNl, Bool.or_eq_false_iff] at h
    exact h.2

theorem hasDoubleNl_nl_head {rest : List Char}
    (h : hasDoubleNl ('\n' :: rest) = false) : rest.head? ≠ some '\n' := by
  cases rest with
  | nil => simp
  | cons c2 r2 =>
    rw [hasDoubleNl, Bool.or_eq_false_iff] at h
    intro hh
    simp only [List.head?_cons, Option.some.injEq] at hh
    rw [hh] at h
    simp at h

theorem hasDoubleNl_of_no_nl (l : List Char) (h : '\n' ∉ l) :
    hasDoubleNl l = false := by
  induction l with
  | nil => rfl
  | cons c rest ih =>
    have hc : ¬ c = '\n' := fun hc => h (hc ▸ List.mem_cons_self c rest)
    rw [hasDoubleNl_cons_of_ne c hc]
    exact ih (fun hm => h (List.mem_cons_of_mem _ hm))

theorem hasDoubleNl_append_no_nl (l : List Char) (hl : '\n' ∉ l) (cs : List Char) :
    hasDoubleNl (l ++ cs) = hasDoubleNl cs := by
  induction l with
  | nil => rfl
  | cons c rest ih =>
    have hc : ¬ c = '\n' := fun hc => hl (hc ▸ List.mem_cons_self c rest)
    rw [List.cons_append, hasDoubleNl_cons_of_ne c hc]
    exact ih (fun hm => hl (List.mem_cons_of_mem _ hm))

theorem joinWithNl_head (l2 : List Char) (rest2 : List (List Char)) (h2 : l2 ≠ []) :
    (joinWithNl (l2 :: rest2)).head? = l2.head? := by
  cases rest2 with
  | nil => rfl
  | cons l3 rest3 =>
    show (l2 ++ '\n' :: joinWithNl (l3 :: rest3)).head? = l2.head?
    cases l2 with
    | nil => exact absurd rfl h2
    | cons c cs => rfl

theorem hasDoubleNl_joinWithNl (ls : List (List Char))
    (hnl : ∀ l ∈ ls, '\n' ∉ l) (hnonempty : ∀ l ∈ ls, l ≠ []) :
    hasDoubleNl (joinWithNl ls) = false := by
  induction ls with
  | nil => rfl
  | cons l rest ih =>
    cases rest with
    | nil => exact hasDoubleNl_of_no_nl l (hnl l (List.mem_cons_self _ _))
    | cons l2 rest2 =>
      have hl : '\n' ∉ l := hnl l (List.mem_cons_self _ _)
      have ihr := ih (fun x hx => hnl x (List.mem_cons_of_mem _ hx))
        (fun x hx => hnonempty x (List.mem_cons_of_mem _ hx))
      show hasDoubleNl (l ++ '\n' :: joinWithNl (l2 :: rest2)) = false
      rw [hasDoubleNl_append_no_nl l hl]
      have hhead : (joinWithNl (l2 :: rest2)).head? = l2.head? :=
        joinWithNl_head l2 rest2 (hnonempty l2 (List.mem_cons_of_mem _ (List.mem_cons_self _ _)))
      cases hj : joinWithNl (l2 :: rest2) with
      | nil => rfl
      | cons c2 r2 =>
        have hl2ne : l2 ≠ [] :=
          hnonempty l2 (List.mem_cons_of_mem _ (List.mem_cons_self _ _))
        have hnl2 : '\n' ∉ l2 :=
          hnl l2 (List.mem_cons_of_mem _ (List.mem_cons_self _ _))
        have hc2 : ¬ c2 = '\n' := by
          intro hc2eq
          rw [hj] at hhead
          cases hl2 : l2 with
          | nil => exact hl2ne hl2
          | cons c0 cs0 =>
            rw [hl2] at hhead
            simp only [List.head?_cons, Option.some.injEq] at hhead
            apply hnl2
            rw [hl2, ← hhead, hc2eq]
            exact List.mem_cons_self _ _
        rw [hj] at ihr
        simp [hasDoubleNl, hc2, ihr]

/-- The invariant run of `splitNlRunsAux` on input without adjacent newlines:
with no pending newline the remaining input extends the current piece, and
with one pending newline (not followed by another) that newline joins the
piece as well. -/
theorem splitNlRunsAux_no_double (cs : List Char) :
    (∀ cur, hasDoubleNl cs = false → splitNlRunsAux cur 0 cs = [cur.reverse ++ cs]) ∧
    (∀ cur, cs.head? ≠ some '\n' → hasDoubleNl cs = false →
      splitNlRunsAux cur 1 cs = [cur.reverse ++ '\n' :: cs]) := by
  induction cs with
  | nil =>
    constructor
    · intro cur _; simp [splitNlRunsAux]
    · intro cur _ _; simp [splitNlRunsAux]
  | cons c rest ih =>
    constructor
    · intro cur hd
      by_cases hc : c = '\n'
      · subst hc
        have hh := hasDoubleNl_nl_head hd
        have hr := hasDoubleNl_tail hd
        rw [show splitNlRunsAux cur 0 ('\n' :: rest) = splitNlRunsAux cur 1 rest by
          simp [splitNlRunsAux]]
        exact ih.2 cur hh hr
      · rw [show splitNlRunsAux cur 0 (c :: rest) = splitNlRunsAux (c :: cur) 0 rest by
          simp [splitNlRunsAux, hc]]
        rw [ih.1 (c :: cur) (hasDoubleNl_tail hd)]
        simp
    · intro cur hh hd
      have hc : ¬ c = '\n' := fun h => hh (by simp [h])
      rw [show splitNlRunsAux cur 1 (c :: rest) =
          splitNlRunsAux (c :: '\n' :: cur) 0 rest by
        simp [splitNlRunsAux, hc]]
      rw [ih.1 (c :: '\n' :: cur) (hasDoubleNl_tail hd)]
      simp

theorem splitNlRuns_no_double (cs : List Char) (h : hasDoubleNl cs = false) :
    splitNlRuns cs = [cs] := by
  have := (splitNlRunsAux_no_double cs).1 [] h
  simpa [splitNlRuns] using this

theorem cueCandidates_clean (skip : List Char → Bool) (ls : List (List Char))
    (h1 : ∀ l ∈ ls, skip l = false)
    (h2 : ∀ l ∈ ls, cleanSubtitleLine l = l)
    (h3 : ∀ l ∈ ls, l ≠ []) :
    cueCandidates skip ls = ls := by
  induction ls with
  | nil => rfl
  | cons l rest ih =>
    have hskip : skip l = false := h1 l (List.mem_cons_self _ _)
    have hclean : cleanSubtitleLine l = l := h2 l (List.mem_cons_self _ _)
    have hnonempty : l ≠ [] := h3 l (List.mem_cons_self _ _)
    have ihr := ih (fun x hx => h1 x (List.mem_cons_of_mem _ hx))
      (fun x hx => h2 x (List.mem_cons_of_mem _ hx))
      (fun x hx => h3 x (List.mem_cons_of_mem _ hx))
    have hcl : ¬ cleanSubtitleLine l = [] := by rw [hclean]; exact hnonempty
    have hcons : cueCandidates skip (l :: rest) =
        cleanSubtitleLine l :: cueCandidates skip rest := by
      simp [cueCandidates, hskip, hcl]
    rw [hcons, hclean, ihr]

/-! ### Claim C8 -/

/-- C8 (amended): on text that is already clean — every line survives the
structural-skip tests, is a fixpoint of the cleaning step, is non-empty, and
all lines are distinct — `parseVtt` returns exactly those lines joined with
single spaces.  In particular a single-line clean text is returned unchanged,
but line breaks are replaced by spaces, so multi-line clean text is not
returned verbatim. -/
theorem parseVtt_clean_text (ls : List (List Char)) (hne : ls ≠ [])
    (hskip : ∀ l ∈ ls, vttLineSkip l = false)
    (hclean : ∀ l ∈ ls, cleanSubtitleLine l = l)
    (hnonempty : ∀ l ∈ ls, l ≠ [])
    (hnl : ∀ l ∈ ls, '\n' ∉ l)
    (hnodup : ls.Nodup) :
    parseVtt (joinWithNl ls).asString = (List.intercalate [' '] ls).asString := by
  unfold parseVtt parseVttLines cueDocLines
  have h0 : ((joinWithNl ls).asString).toList = joinWithNl ls := rfl
  rw [h0]
  rw [splitNlRuns_no_double _ (hasDoubleNl_joinWithNl ls hnl hnonempty)]
  simp only [List.map_cons, List.map_nil, List.flatten_cons, List.flatten_nil,
    List.append_nil]
  rw [splitLines_joinWithNl ls hne hnl]
  rw [cueLinesAux_eq vttLineSkip ls [], removeSeen_nil]
  rw [cueCandidates_clean vttLineSkip ls hskip hclean hnonempty]
  rw [firstSeenDedup_eq_self hnodup]
  simp

/-- Concrete instance of C8's amended theorem: the clean two-line text
"hi\nyo" parses to "hi yo". -/
theorem parseVtt_clean_text_witness : parseVtt "hi\nyo" = "hi yo" := by
  have h := parseVtt_clean_text ["hi".toList, "yo".toList]
    (by decide) (by decide) (by decide) (by decide) (by decide) (by decide)
  exact h

/-- C8 counterexample: "hello\nworld" is already clean in the claim's sense
(both lines pass the skip tests, are fixpoints of the cleaning step, and are
distinct), yet parsing does not return it unchanged — the two lines are
joined with a space. -/
theorem parseVtt_clean_text_cex :
    vttLineSkip "hello".toList = false ∧
    vttLineSkip "world".toList = false ∧
    cleanSubtitleLine "hello".toList = "hello".toList ∧
    cleanSubtitleLine "world".toList = "world".toList ∧
    parseVtt "hello\nworld" = "hello world" ∧
    parseVtt "hello\nworld" ≠ "hello\nworld" := by
  refine ⟨by decide, by decide, by decide, by decide, rfl, by decide⟩

/-! ## Transcript extractor (src/normalize.ts)

The extractor consumes an arbitrary JSON payload, embedded as the inductive
`Json` below with strings as character lists (so that JavaScript `trim` and
`join` admit inductive reasoning).  `undefined` property lookups are modelled
by `Option`; `obj[key] ?? …` chains skip both absent keys and `null` values.
The one self-recursive function, `extractTextFromUnknown`, descends into a
strictly smaller JSON value on every recursive call, so running its
fuel-indexed body with fuel `sizeOf v + 1` never exhausts the fuel. -/

inductive Json
  | null
  | str (s : List Char)
  | num (n : Int)
  | bool (b : Bool)
  | arr (xs : List Json)
  | obj (fields : List (String × Json))

mutual

/-- Structural size of a JSON value, used as the fuel bound for the one
self-recursive extractor function. -/
def jsonSize : Json → Nat
  | .null => 1
  | .str _ => 1
  | .num _ => 1
  | .bool _ => 1
  | .arr xs => 1 + jsonSizeList xs
  | .obj fields => 1 + jsonSizeFields fields

def jsonSizeList : List Json → Nat
  | [] => 0
  | x :: xs => 1 + jsonSize x + jsonSizeList xs

def jsonSizeFields : List (String × Json) → Nat
  | [] => 0
  | (_, v) :: fs => 1 + jsonSize v + jsonSizeFields fs

end

/-- `TranscriptItem` from src/normalize.ts. -/
structure TranscriptItem where
  id : Option (List Char) := none
  title : Option (List Char) := none
  text : List Char
deriving DecidableEq, Repr

/-- `a ?? b ?? …` over the named properties: the first key whose value is
present and not `null`. -/
def nullishChain (fields : List (String × Json)) : List String → Option Json
  | [] => none
  | k :: ks =>
    match List.lookup k fields with
    | some Json.null => nullishChain fields ks
    | some v => some v
    | none => nullishChain fields ks

/-- `firstString(obj, keys)`: the first key holding a string with non-empty
trim, returned trimmed. -/
def firstString (fields : List (String × Json)) : List String → Option (List Char)
  | [] => none
  | k :: ks =>
    match List.lookup k fields with
    | some (Json.str s) =>
      if trimChars s ≠ [] then some (trimChars s) else firstString fields ks
    | _ => firstString fields ks

/-- `typeof item === "string"`. -/
def isJsonStr : Json → Bool
  | .str _ => true
  | _ => false

def jsonStrVal : Json → List Char
  | .str s => s
  | _ => []

/-- `typeof item === "object" && item !== null && "text" in item` (arrays
have no `"text"` property). -/
def hasTextProp : Json → Bool
  | .obj fields => (List.lookup "text" fields).isSome
  | _ => false

/-- `item.text` when it is a string. -/
def textPropStr : Json → Option (List Char)
  | .obj fields =>
    match List.lookup "text" fields with
    | some (.str s) => some s
    | _ => none
  | _ => none

/-- JavaScript `pieces.join(" ")`. -/
def joinSp : List (List Char) → List Char
  | [] => []
  | [l] => l
  | l :: l2 :: rest => l ++ ' ' :: joinSp (l2 :: rest)

/-- The fuel-indexed body of `extractTextFromUnknown(value)`. -/
def extractTextFromUnknownGo : Nat → Json → Option (List Char)
  | 0, _ => none
  | fuel + 1, v =>
    match v with
    | .null => none
    | .str s => if trimChars s = [] then none else some (trimChars s)
    | .arr xs =>
      if xs.isEmpty then none
      else if xs.all isJsonStr then
        let joined := joinSp
          (((xs.map jsonStrVal).map trimChars).filter (fun s => s != []))
        if joined = [] then none else some joined
      else if xs.all hasTextProp then
        let joined := joinSp
          (((xs.filterMap textPropStr).map trimChars).filter (fun s => s != []))
        if joined = [] then none else some joined
      else
        let fromEntries :=
          (xs.filterMap (extractTextFromUnknownGo fuel)).filter (fun s => s != [])
        if fromEntries.isEmpty then none else some (joinSp fromEntries)
    | .obj fields =>
      match extractTextFromUnknownGo fuel
          ((nullishChain fields ["text", "transcript", "caption", "content"]).getD .null) with
      | some t => some t
      | none =>
        extractTextFromUnknownGo fuel ((List.lookup "segments" fields).getD .null) <|>
          extractTextFromUnknownGo fuel ((List.lookup "captions" fields).getD .null) <|>
          extractTextFromUnknownGo fuel ((List.lookup "items" fields).getD .null) <|>
          extractTextFromUnknownGo fuel ((List.lookup "data" fields).getD .null) <|>
          extractTextFromUnknownGo fuel ((List.lookup "results" fields).getD .null) <|>
          extractTextFromUnknownGo fuel ((List.lookup "transcripts" fields).getD .null)
    | _ => none

/-- `extractTextFromUnknown(value)` from src/normalize.ts.  Every recursive
call of the body descends into a strictly smaller JSON value, so fuel
`jsonSize v + 1` is never exhausted. -/
def extractTextFromUnknown (v : Json) : Option (List Char) :=
  extractTextFromUnknownGo (jsonSize v + 1) v

/-- `itemFromEntry(entry)` from src/normalize.ts. -/
def itemFromEntry (entry : Json) : List TranscriptItem :=
  match entry with
  | .null => []
  | .str s => if trimChars s ≠ [] then [{ text := trimChars s }] else []
  | .arr xs =>
    match extractTextFromUnknown (.arr xs) with
    | some t => [{ text := t }]
    | none => []
  | .obj fields =>
    let title := firstString fields ["title", "video_title", "name"]
    let id := firstString fields ["id", "video_id", "videoId"]
    match extractTextFromUnknown
        ((nullishChain fields
          ["transcript", "text", "segments", "captions", "items", "data"]).getD .null) with
    | some t => [{ id := id, title := title, text := t }]
    | none => []
  | _ => []

/-- The `collectionKeys` loop of `extractTranscriptItems`: the first key
holding an array whose entries yield at least one item. -/
def collectionFromKeys (fields : List (String × Json)) : List String → List TranscriptItem
  | [] => []
  | k :: ks =>
    match List.lookup k fields with
    | some (.arr xs) =>
      let items := xs.flatMap itemFromEntry
      if items.length > 0 then items else collectionFromKeys fields ks
    | _ => collectionFromKeys fields ks

/-- `extractTranscriptItems(payload)` from src/normalize.ts. -/
def extractTranscriptItems (payload : Json) : List TranscriptItem :=
  match payload with
  | .null => []
  | .str s => if trimChars s ≠ [] then [{ text := trimChars s }] else []
  | .arr xs =>
    let fromEntries := xs.flatMap itemFromEntry
    if fromEntries.length > 0 then fromEntries
    else
      match extractTextFromUnknown (.arr xs) with
      | some t => [{ text := t }]
      | none => []
  | .obj fields =>
    let fromCollections :=
      collectionFromKeys fields ["transcripts", "results", "data", "items"]
    if fromCollections.length > 0 then fromCollections
    else
      match extractTextFromUnknown (.obj fields) with
      | some t => [{ text := t }]
      | none => []
  | _ => []

/-! ### Claim C9 -/

/-- The payload `{"data": [{"text": "hello"}, {"text": "world"}]}`. -/
def payloadDataHelloWorld : Json :=
  .obj [("data", .arr [.obj [("text", .str "hello".toList)],
                       .obj [("text", .str "world".toList)]])]

/-- C9 counterexample: on `{"data": [{"text": "hello"}, {"text": "world"}]}`
the extractor returns two records ("hello" and "world"), not one record with
text "hello world": the collection-keys loop maps `itemFromEntry` over the
array and each text-bearing entry yields its own record. -/
theorem extractTranscriptItems_data_cex :
    extractTranscriptItems payloadDataHelloWorld =
      [{ text := "hello".toList }, { text := "world".toList }] ∧
    (extractTranscriptItems payloadDataHelloWorld).length = 2 ∧
    ¬ (extractTranscriptItems payloadDataHelloWorld).length = 1 := by
  refine ⟨rfl, rfl, by decide⟩

/-- C9 (amended): on `{"data": [...]}` with two text-bearing entries the
extractor returns one record per entry ("hello" then "world"); on the string
payload "plain string" it returns exactly one record with that text; on
`null` and on `{}` it returns the empty sequence; and unrecognized shapes
(numbers, booleans) also yield the empty sequence rather than a failure (the
embedding is a total function). -/
theorem extractTranscriptItems_cases :
    extractTranscriptItems payloadDataHelloWorld =
      [{ text := "hello".toList }, { text := "world".toList }] ∧
    extractTranscriptItems (.str "plain string".toList) =
      [{ text := "plain string".toList }] ∧
    extractTranscriptItems .null = [] ∧
    extractTranscriptItems (.obj []) = [] ∧
    extractTranscriptItems (.num 5) = [] ∧
    extractTranscriptItems (.bool true) = [] :=
  ⟨rfl, rfl, rfl, rfl, rfl, rfl⟩

/-! ### Trim and join lemmas for Claim C10 -/

theorem head_dropWhile_false (p : Char → Bool) (l : List Char) :
    ∀ c ∈ (l.dropWhile p).head?, p c = false := by
  induction l with
  | nil => simp
  | cons a rest ih =>
    intro c hc
    rw [List.dropWhile_cons] at hc
    by_cases hp : p a = true
    · rw [if_pos hp] at hc
      exact ih c hc
    · rw [if_neg hp] at hc
      have hac : a = c := by simpa using hc
      rw [← hac]
      simpa using hp

theorem dropWhile_eq_self_of_head (p : Char → Bool) (l : List Char)
    (h : ∀ c ∈ l.head?, p c = false) : l.dropWhile p = l := by
  cases l with
  | nil => rfl
  | cons a rest =>
    have ha := h a rfl
    rw [List.dropWhile_cons, if_neg (by simp [ha])]

/-- The string has no leading and no trailing JavaScript whitespace. -/
def NoEdgeSpace (s : List Char) : Prop :=
  (∀ c ∈ s.head?, jsIsSpace c = false) ∧ (∀ c ∈ s.getLast?, jsIsSpace c = false)

theorem trimChars_eq_self {s : List Char} (h : NoEdgeSpace s) : trimChars s = s := by
  have h2 : ∀ c ∈ s.reverse.head?, jsIsSpace c = false := by
    intro c hc
    rw [List.head?_reverse] at hc
    exact h.2 c hc
  unfold trimChars
  rw [dropWhile_eq_self_of_head _ _ h.1, dropWhile_eq_self_of_head _ _ h2,
    List.reverse_reverse]

theorem getLast?_dropWhile (p : Char → Bool) (z : List Char)
    (h : z.dropWhile p ≠ []) : (z.dropWhile p).getLast? = z.getLast? := by
  induction z with
  | nil => simp at h
  | cons a rest ih =>
    rw [List.dropWhile_cons]
    by_cases hp : p a = true
    · rw [if_pos hp]
      rw [List.dropWhile_cons, if_pos hp] at h
      have hrest : rest ≠ [] := by
        intro hr
        rw [hr] at h
        simp at h
      rw [ih h]
      cases rest with
      | nil => exact absurd rfl hrest
      | cons b l => exact List.getLast?_cons_cons.symm
    · rw [if_neg hp]

theorem noEdgeSpace_trimChars (s : List Char) : NoEdgeSpace (trimChars s) := by
  constructor
  · intro c hc
    unfold trimChars at hc
    rw [List.head?_reverse] at hc
    by_cases hyne : (s.dropWhile jsIsSpace).reverse.dropWhile jsIsSpace = []
    · rw [hyne] at hc
      simp at hc
    · rw [getLast?_dropWhile _ _ hyne, List.getLast?_reverse] at hc
      exact head_dropWhile_false jsIsSpace s c hc
  · intro c hc
    unfold trimChars at hc
    rw [List.getLast?_reverse] at hc
    exact head_dropWhile_false jsIsSpace _ c hc

theorem joinSp_ne_nil (pieces : List (List Char)) (hne : pieces ≠ [])
    (h : ∀ l ∈ pieces, l ≠ []) : joinSp pieces ≠ [] := by
  cases pieces with
  | nil => exact absurd rfl hne
  | cons l rest =>
    cases rest with
    | nil => exact h l (List.mem_cons_self _ _)
    | cons l2 rest2 =>
      show l ++ ' ' :: joinSp (l2 :: rest2) ≠ []
      simp

theorem head?_append_left (l m : List Char) (h : l ≠ []) :
    (l ++ m).head? = l.head? := by
  cases l with
  | nil => exact absurd rfl h
  | cons a rest => rfl

theorem joinSp_noEdgeSpace (pieces : List (List Char))
    (hne : ∀ l ∈ pieces, l ≠ []) (h : ∀ l ∈ pieces, NoEdgeSpace l) :
    NoEdgeSpace (joinSp pieces) := by
  induction pieces with
  | nil => exact ⟨by simp [joinSp], by simp [joinSp]⟩
  | cons l rest ih =>
    cases rest with
    | nil => exact h l (List.mem_cons_self _ _)
    | cons l2 rest2 =>
      have hl := h l (List.mem_cons_self _ _)
      have hlne := hne l (List.mem_cons_self _ _)
      have ihr := ih (fun x hx => hne x (List.mem_cons_of_mem _ hx))
        (fun x hx => h x (List.mem_cons_of_mem _ hx))
      have hjne : joinSp (l2 :: rest2) ≠ [] :=
        joinSp_ne_nil _ (by simp) (fun x hx => hne x (List.mem_cons_of_mem _ hx))
      constructor
      · intro c hc
        rw [show joinSp (l :: l2 :: rest2) = l ++ ' ' :: joinSp (l2 :: rest2) from rfl,
          head?_append_left _ _ hlne] at hc
        exact hl.1 c hc
      · intro c hc
        rw [show joinSp (l :: l2 :: rest2) = l ++ ' ' :: joinSp (l2 :: rest2) from rfl,
          List.getLast?_append_of_ne_nil _ (by simp)] at hc
        cases hj : joinSp (l2 :: rest2) with
        | nil => exact absurd hj hjne
        | cons d r =>
          rw [hj, List.getLast?_cons_cons, ← hj] at hc
          exact ihr.2 c hc

theorem orElse_eq_some_cases {x y : Option (List Char)} {t : List Char}
    (h : (x <|> y) = some t) : x = some t ∨ y = some t := by
  cases x with
  | none => right; rw [Option.none_orElse] at h; exact h
  | some a => left; rw [Option.some_orElse] at h; exact h

/-! ### Claim C10 -/

theorem firstString_invariant (fields : List (String × Json)) :
    ∀ keys s, firstString fields keys = some s → s ≠ [] ∧ NoEdgeSpace s := by
  intro keys
  induction keys with
  | nil => intro s h; exact absurd h (by simp [firstString])
  | cons k ks ih =>
    intro s h
    cases hlk : List.lookup k fields with
    | none =>
      simp only [firstString, hlk] at h
      exact ih s h
    | some v =>
      cases v with
      | str sv =>
        simp only [firstString, hlk] at h
        split at h
        next ht =>
          injection h with h
          subst h
          exact ⟨ht, noEdgeSpace_trimChars sv⟩
        next => exact ih s h
      | null => simp only [firstString, hlk] at h; exact ih s h
      | num n => simp only [firstString, hlk] at h; exact ih s h
      | bool b => simp only [firstString, hlk] at h; exact ih s h
      | arr xs => simp only [firstString, hlk] at h; exact ih s h
      | obj fs => simp only [firstString, hlk] at h; exact ih s h

theorem extractTextGo_invariant :
    ∀ (fuel : Nat) (v : Json) (t : List Char),
      extractTextFromUnknownGo fuel v = some t → t ≠ [] ∧ NoEdgeSpace t := by
  intro fuel
  induction fuel with
  | zero => intro v t h; exact absurd h (by simp [extractTextFromUnknownGo])
  | succ fuel ih =>
    intro v t h
    match v with
    | .null => simp [extractTextFromUnknownGo] at h
    | .num n => simp [extractTextFromUnknownGo] at h
    | .bool b => simp [extractTextFromUnknownGo] at h
    | .str s =>
      simp only [extractTextFromUnknownGo] at h
      split at h
      next => exact absurd h (by simp)
      next hts =>
        injection h with h
        subst h
        exact ⟨hts, noEdgeSpace_trimChars s⟩
    | .arr xs =>
      simp only [extractTextFromUnknownGo] at h
      split at h
      next => exact absurd h (by simp)
      next hxe =>
        split at h
        next =>
          split at h
          next => exact absurd h (by simp)
          next hj =>
            injection h with h
            subst h
            refine ⟨hj, joinSp_noEdgeSpace _ ?_ ?_⟩
            · intro l hl
              have := List.of_mem_filter hl
              simpa using this
            · intro l hl
              have hmem := List.mem_of_mem_filter hl
              rcases List.mem_map.mp hmem with ⟨y, hy, rfl⟩
              exact noEdgeSpace_trimChars y
        next =>
          split at h
          next =>
            split at h
            next => exact absurd h (by simp)
            next hj =>
              injection h with h
              subst h
              refine ⟨hj, joinSp_noEdgeSpace _ ?_ ?_⟩
              · intro l hl
                have := List.of_mem_filter hl
                simpa using this
              · intro l hl
                have hmem := List.mem_of_mem_filter hl
                rcases List.mem_map.mp hmem with ⟨y, hy, rfl⟩
                exact noEdgeSpace_trimChars y
          next =>
            split at h
            next => exact absurd h (by simp)
            next hfe =>
              injection h with h
              subst h
              have hpieces : ∀ l ∈ (xs.filterMap
                  (extractTextFromUnknownGo fuel)).filter (fun s => s != []),
                  l ≠ [] ∧ NoEdgeSpace l := by
                intro l hl
                have hmem := List.mem_of_mem_filter hl
                rcases List.mem_filterMap.mp hmem with ⟨y, hy, hgo⟩
                exact ih y l hgo
              have hpne : (xs.filterMap
                  (extractTextFromUnknownGo fuel)).filter (fun s => s != []) ≠ [] := by
                intro h0
                exact hfe (by simp [h0])
              exact ⟨joinSp_ne_nil _ hpne (fun l hl => (hpieces l hl).1),
                joinSp_noEdgeSpace _ (fun l hl => (hpieces l hl).1)
                  (fun l hl => (hpieces l hl).2)⟩
    | .obj fields =>
      simp only [extractTextFromUnknownGo] at h
      split at h
      next t' hdirect =>
        injection h with h
        subst h
        exact ih _ _ hdirect
      next hdirect =>
        rcases orElse_eq_some_cases h with h1 | h
        · exact ih _ _ h1
        rcases orElse_eq_some_cases h with h1 | h
        · exact ih _ _ h1
        rcases orElse_eq_some_cases h with h1 | h
        · exact ih _ _ h1
        rcases orElse_eq_some_cases h with h1 | h
        · exact ih _ _ h1
        rcases orElse_eq_some_cases h with h1 | h
        · exact ih _ _ h1
        exact ih _ _ h

theorem extractTextFromUnknown_invariant (v : Json) (t : List Char)
    (h : extractTextFromUnknown v = some t) : t ≠ [] ∧ NoEdgeSpace t :=
  extractTextGo_invariant _ v t h

/-- The record invariant of the extractor. -/
def ItemInv (item : TranscriptItem) : Prop :=
  (item.text ≠ [] ∧ NoEdgeSpace item.text) ∧
  (∀ s, item.id = some s → s ≠ [] ∧ NoEdgeSpace s) ∧
  (∀ s, item.title = some s → s ≠ [] ∧ NoEdgeSpace s)

theorem itemFromEntry_invariant (entry : Json) :
    ∀ item ∈ itemFromEntry entry, ItemInv item := by
  intro item hitem
  match entry with
  | .null => simp [itemFromEntry] at hitem
  | .num n => simp [itemFromEntry] at hitem
  | .bool b => simp [itemFromEntry] at hitem
  | .str s =>
    simp only [itemFromEntry] at hitem
    split at hitem
    next hts =>
      simp at hitem
      subst hitem
      exact ⟨⟨hts, noEdgeSpace_trimChars s⟩,
        (by intro s hs; simp at hs), (by intro s hs; simp at hs)⟩
    next => simp at hitem
  | .arr xs =>
    simp only [itemFromEntry] at hitem
    split at hitem
    next t hext =>
      simp at hitem
      subst hitem
      exact ⟨⟨(extractTextFromUnknown_invariant _ _ hext).1,
          (extractTextFromUnknown_invariant _ _ hext).2⟩,
        (by intro s hs; simp at hs), (by intro s hs; simp at hs)⟩
    next => simp at hitem
  | .obj fields =>
    simp only [itemFromEntry] at hitem
    split at hitem
    next t hext =>
      simp at hitem
      subst hitem
      refine ⟨⟨(extractTextFromUnknown_invariant _ _ hext).1,
          (extractTextFromUnknown_invariant _ _ hext).2⟩, ?_, ?_⟩
      · intro s hs
        exact firstString_invariant fields _ s hs
      · intro s hs
        exact firstString_invariant fields _ s hs
    next => simp at hitem

theorem collectionFromKeys_invariant (fields : List (String × Json)) :
    ∀ keys item, item ∈ collectionFromKeys fields keys → ItemInv item := by
  intro keys
  induction keys with
  | nil => intro item h; simp [collectionFromKeys] at h
  | cons k ks ih =>
    intro item h
    cases hlk : List.lookup k fields with
    | none =>
      simp only [collectionFromKeys, hlk] at h
      exact ih item h
    | some v =>
      cases v with
      | arr xs =>
        simp only [collectionFromKeys, hlk] at h
        split at h
        next =>
          rcases List.mem_flatMap.mp h with ⟨entry, hentry, hi⟩
          exact itemFromEntry_invariant entry item hi
        next => exact ih item h
      | null => simp only [collectionFromKeys, hlk] at h; exact ih item h
      | str sv => simp only [collectionFromKeys, hlk] at h; exact ih item h
      | num n => simp only [collectionFromKeys, hlk] at h; exact ih item h
      | bool b => simp only [collectionFromKeys, hlk] at h; exact ih item h
      | obj fs => simp only [collectionFromKeys, hlk] at h; exact ih item h

/-- C10: every record the extractor returns, on any payload whatsoever, has a
non-empty text that is its own whitespace-trim, and its optional id and title
fields, when present, are likewise non-empty trimmed strings. -/
theorem extractTranscriptItems_invariant (payload : Json) :
    ∀ item ∈ extractTranscriptItems payload,
      item.text ≠ [] ∧ trimChars item.text = item.text ∧
      (∀ s, item.id = some s → s ≠ [] ∧ trimChars s = s) ∧
      (∀ s, item.title = some s → s ≠ [] ∧ trimChars s = s) := by
  have main : ∀ item ∈ extractTranscriptItems payload, ItemInv item := by
    intro item hitem
    match payload with
    | .null => simp [extractTranscriptItems] at hitem
    | .num n => simp [extractTranscriptItems] at hitem
    | .bool b => simp [extractTranscriptItems] at hitem
    | .str s =>
      simp only [extractTranscriptItems] at hitem
      split at hitem
      next hts =>
        simp at hitem
        subst hitem
        exact ⟨⟨hts, noEdgeSpace_trimChars s⟩,
          (by intro s hs; simp at hs), (by intro s hs; simp at hs)⟩
      next => simp at hitem
    | .arr xs =>
      simp only [extractTranscriptItems] at hitem
      split at hitem
      next =>
        rcases List.mem_flatMap.mp hitem with ⟨entry, hentry, hi⟩
        exact itemFromEntry_invariant entry item hi
      next =>
        split at hitem
        next t hext =>
          simp at hitem
          subst hitem
          exact ⟨⟨(extractTextFromUnknown_invariant _ _ hext).1,
              (extractTextFromUnknown_invariant _ _ hext).2⟩,
            (by intro s hs; simp at hs), (by intro s hs; simp at hs)⟩
        next => simp at hitem
    | .obj fields =>
      simp only [extractTranscriptItems] at hitem
      split at hitem
      next =>
        exact collectionFromKeys_invariant fields _ item hitem
      next =>
        split at hitem
        next t hext =>
          simp at hitem
          subst hitem
          exact ⟨⟨(extractTextFromUnknown_invariant _ _ hext).1,
              (extractTextFromUnknown_invariant _ _ hext).2⟩,
            (by intro s hs; simp at hs), (by intro s hs; simp at hs)⟩
        next => simp at hitem
  intro item hitem
  rcases main item hitem with ⟨⟨h1, h2⟩, h3, h4⟩
  exact ⟨h1, trimChars_eq_self h2,
    fun s hs => ⟨(h3 s hs).1, trimChars_eq_self (h3 s hs).2⟩,
    fun s hs => ⟨(h4 s hs).1, trimChars_eq_self (h4 s hs).2⟩⟩

/-- Concrete instance of C10: the payload `" hi "` yields the single record
with the trimmed non-empty text "hi". -/
theorem extractTranscriptItems_invariant_witness :
    ({ text := "hi".toList } : TranscriptItem) ∈
      extractTranscriptItems (.str " hi ".toList) ∧
    "hi".toList ≠ [] ∧ trimChars "hi".toList = "hi".toList := by
  have hmem : ({ text := "hi".toList } : TranscriptItem) ∈
      extractTranscriptItems (.str " hi ".toList) := by decide
  have h := extractTranscriptItems_invariant (.str " hi ".toList)
    { text := "hi".toList } hmem
  exact ⟨hmem, h.1, h.2.1⟩

end YoutubeReader
